import Mathlib

/- Verification of mr-manager (src/include/mr-manager/manager.hpp).

   The header defines a per-type registry `Manager<T>` over
   `folly::ConcurrentHashMap<std::string, Entry>`:
     - `create(id, args...)` does `_table.insert_or_assign(id, T{args...})`
       (the mapped `Entry` allocates a slot from a fixed pmr arena/pool and
       constructs the instance in place) and returns `Handle{_table.find(id)}`;
     - `create(UnnamedTag, args...)` draws `int id = cnt++` from a static
       `std::atomic_int`, formats it with `std::to_string`, and proceeds as
       the named overload on the same table;
     - `find(id)` returns `optional<Handle>`, `clear()` clears the table,
       `size()` returns the table's size.

   Embedding choices, justified by the collaborator contract the header
   relies on (folly's safe reclamation of superseded nodes):
     - the table is an association list `List (String × Nat)` with
       insert-or-assign semantics, the `Nat` being the index of the node the
       binding points at;
     - every `insert_or_assign` makes a fresh node holding a freshly
       constructed instance; superseded nodes are only reclaimed once no
       Handle can observe them, so the model keeps all nodes in an
       append-only `entries` list and a `Handle` is the index of the node it
       was bound to at creation, exactly like the `const_iterator` a real
       Handle wraps;
     - the unnamed counter is a 32-bit signed counter: the model tracks the
       number of unnamed creates as a `Nat` and reduces it modulo 2^32 with
       two's complement sign, which is what `std::atomic_int`'s fetch_add
       wraparound does. -/

namespace MrManager

/-- Decimal digit character, as produced by `std::to_string`. -/
def digitChar (d : Nat) : Char := Char.ofNat (48 + d)

/-- Little-endian decimal digits of `n`; fuel-based recursion, `n` itself is
always enough fuel. -/
def toRevDigitsCore : Nat → Nat → List Nat
  | 0, _ => []
  | _ + 1, 0 => []
  | fuel + 1, n + 1 => ((n + 1) % 10) :: toRevDigitsCore fuel ((n + 1) / 10)

/-- Little-endian decimal digits of `n` (empty for 0). -/
def toRevDigits (n : Nat) : List Nat := toRevDigitsCore n n

/-- Value of a little-endian decimal digit list. -/
def ofRevDigits : List Nat → Nat
  | [] => 0
  | d :: ds => d + 10 * ofRevDigits ds

lemma ofRevDigits_toRevDigitsCore :
    ∀ (fuel n : Nat), n ≤ fuel → ofRevDigits (toRevDigitsCore fuel n) = n
  | 0, 0, _ => rfl
  | 0, n + 1, h => absurd h (by omega)
  | _ + 1, 0, _ => rfl
  | fuel + 1, n + 1, h => by
    have hlt : (n + 1) / 10 < n + 1 := Nat.div_lt_self (Nat.succ_pos n) (by omega)
    have hdiv : (n + 1) / 10 ≤ fuel := by omega
    have ih := ofRevDigits_toRevDigitsCore fuel ((n + 1) / 10) hdiv
    simp only [toRevDigitsCore, ofRevDigits, ih]
    omega

lemma ofRevDigits_toRevDigits (n : Nat) : ofRevDigits (toRevDigits n) = n :=
  ofRevDigits_toRevDigitsCore n n (Nat.le_refl n)

lemma toRevDigits_inj {m n : Nat} (h : toRevDigits m = toRevDigits n) : m = n := by
  have hm := ofRevDigits_toRevDigits m
  have hn := ofRevDigits_toRevDigits n
  rw [h] at hm
  omega

lemma toRevDigitsCore_lt_ten :
    ∀ (fuel n : Nat), ∀ d ∈ toRevDigitsCore fuel n, d < 10
  | 0, _, d, hd => by simp [toRevDigitsCore] at hd
  | _ + 1, 0, d, hd => by simp [toRevDigitsCore] at hd
  | fuel + 1, n + 1, d, hd => by
    simp only [toRevDigitsCore, List.mem_cons] at hd
    rcases hd with h | h
    · omega
    · exact toRevDigitsCore_lt_ten fuel ((n + 1) / 10) d h

lemma toRevDigits_lt_ten (n : Nat) : ∀ d ∈ toRevDigits n, d < 10 :=
  toRevDigitsCore_lt_ten n n

lemma digitChar_inj : ∀ d1 < 10, ∀ d2 < 10, digitChar d1 = digitChar d2 → d1 = d2 := by
  decide

lemma map_digitChar_inj :
    ∀ (l1 l2 : List Nat), (∀ d ∈ l1, d < 10) → (∀ d ∈ l2, d < 10) →
      l1.map digitChar = l2.map digitChar → l1 = l2
  | [], [], _, _, _ => rfl
  | [], _ :: _, _, _, h => by simp at h
  | _ :: _, [], _, _, h => by simp at h
  | d1 :: l1, d2 :: l2, h1, h2, h => by
    simp only [List.map_cons, List.cons.injEq] at h
    have hd : d1 = d2 :=
      digitChar_inj d1 (h1 d1 (List.mem_cons_self _ _)) d2 (h2 d2 (List.mem_cons_self _ _)) h.1
    have hl : l1 = l2 :=
      map_digitChar_inj l1 l2 (fun d hd => h1 d (List.mem_cons_of_mem _ hd))
        (fun d hd => h2 d (List.mem_cons_of_mem _ hd)) h.2
    rw [hd, hl]

/-- Model of `std::to_string` on an unsigned value: decimal digits, most
significant first, and `"0"` for zero. -/
def natToString (n : Nat) : String :=
  if n = 0 then "0" else String.mk (((toRevDigits n).map digitChar).reverse)

lemma toRevDigits_ne_nil {n : Nat} (h : n ≠ 0) : toRevDigits n ≠ [] := by
  cases n with
  | zero => exact absurd rfl h
  | succ m => simp [toRevDigits, toRevDigitsCore]

lemma natToString_inj {m n : Nat} (h : natToString m = natToString n) : m = n := by
  unfold natToString at h
  by_cases hm : m = 0 <;> by_cases hn : n = 0
  · omega
  · rw [if_pos hm, if_neg hn] at h
    have hdata : ['0'] = ((toRevDigits n).map digitChar).reverse :=
      congrArg String.data h
    cases hd : toRevDigits n with
    | nil => exact absurd hd (toRevDigits_ne_nil hn)
    | cons d ds =>
      rw [hd] at hdata
      cases hds : ds with
      | cons d' ds' =>
        rw [hds] at hdata
        have : (1 : Nat) = (digitChar d' :: (ds'.map digitChar)).reverse.length + 1 := by
          simpa using congrArg List.length hdata
        simp at this
      | nil =>
        rw [hds] at hdata
        simp only [List.map_cons, List.map_nil, List.reverse_cons, List.reverse_nil,
          List.nil_append, List.cons.injEq, and_true] at hdata
        have hd10 : d < 10 := toRevDigits_lt_ten n d (by rw [hd, hds]; exact List.mem_cons_self _ _)
        have : (0 : Nat) = d := digitChar_inj 0 (by omega) d hd10 (by simpa [digitChar] using hdata)
        have hval := ofRevDigits_toRevDigits n
        rw [hd, hds, ← this] at hval
        simp [ofRevDigits] at hval
        omega
  · rw [if_neg hm, if_pos hn] at h
    have hdata : ((toRevDigits m).map digitChar).reverse = ['0'] :=
      congrArg String.data h
    cases hd : toRevDigits m with
    | nil => exact absurd hd (toRevDigits_ne_nil hm)
    | cons d ds =>
      rw [hd] at hdata
      cases hds : ds with
      | cons d' ds' =>
        rw [hds] at hdata
        have : (digitChar d' :: (ds'.map digitChar)).reverse.length + 1 = (1 : Nat) := by
          simpa using congrArg List.length hdata
        simp at this
      | nil =>
        rw [hds] at hdata
        simp only [List.map_cons, List.map_nil, List.reverse_cons, List.reverse_nil,
          List.nil_append, List.cons.injEq, and_true] at hdata
        have hd10 : d < 10 := toRevDigits_lt_ten m d (by rw [hd, hds]; exact List.mem_cons_self _ _)
        have : d = 0 := digitChar_inj d hd10 0 (by omega) (by simpa [digitChar] using hdata)
        have hval := ofRevDigits_toRevDigits m
        rw [hd, hds, this] at hval
        simp [ofRevDigits] at hval
        omega
  · rw [if_neg hm, if_neg hn] at h
    have hdata : ((toRevDigits m).map digitChar).reverse = ((toRevDigits n).map digitChar).reverse :=
      congrArg String.data h
    have hmap : (toRevDigits m).map digitChar = (toRevDigits n).map digitChar :=
      List.reverse_injective hdata
    exact toRevDigits_inj
      (map_digitChar_inj _ _ (toRevDigits_lt_ten m) (toRevDigits_lt_ten n) hmap)

lemma dash_not_mem_natToString (n : Nat) : Char.ofNat 45 ∉ (natToString n).data := by
  unfold natToString
  by_cases hn : n = 0
  · rw [if_pos hn]
    decide
  · rw [if_neg hn]
    intro hmem
    simp only [List.mem_reverse, List.mem_map] at hmem
    obtain ⟨d, hd, hchar⟩ := hmem
    have hd10 : d < 10 := toRevDigits_lt_ten n d hd
    revert hchar
    have : ∀ d < 10, digitChar d ≠ Char.ofNat 45 := by decide
    exact this d hd10

/-- Model of `std::to_string(int)`: sign-magnitude decimal formatting. -/
def intToString (i : Int) : String :=
  if i < 0 then String.mk (Char.ofNat 45 :: (natToString i.natAbs).data)
  else natToString i.toNat

lemma intToString_inj {i j : Int} (h : intToString i = intToString j) : i = j := by
  unfold intToString at h
  by_cases hi : i < 0 <;> by_cases hj : j < 0
  · rw [if_pos hi, if_pos hj] at h
    have hdata := congrArg String.data h
    simp only [List.cons.injEq, true_and] at hdata
    have habs : i.natAbs = j.natAbs := by
      apply natToString_inj
      cases hm : natToString i.natAbs
      cases hn : natToString j.natAbs
      rw [hm, hn] at hdata
      simp only at hdata
      rw [hdata]
    omega
  · rw [if_pos hi, if_neg hj] at h
    have hdata := congrArg String.data h
    simp only at hdata
    exact absurd (hdata ▸ List.mem_cons_self _ _) (dash_not_mem_natToString j.toNat)
  · rw [if_neg hi, if_pos hj] at h
    have hdata := congrArg String.data h
    simp only at hdata
    exact absurd (hdata ▸ List.mem_cons_self _ _) (dash_not_mem_natToString i.toNat)
  · rw [if_neg hi, if_neg hj] at h
    have := natToString_inj h
    omega

/-- Two's complement reinterpretation of `c mod 2^32` as a signed 32-bit
value: the value `int id = cnt++` reads after `c` prior unnamed creates. -/
def toSigned32 (c : Nat) : Int :=
  if c % 4294967296 < 2147483648 then ((c % 4294967296 : Nat) : Int)
  else ((c % 4294967296 : Nat) : Int) - 4294967296

/-- The identifier string produced by the `c`-th unnamed create (counting
from zero): `std::to_string` of the wrapped 32-bit counter value. -/
def unnamedIdString (c : Nat) : String := intToString (toSigned32 c)

lemma toSigned32_inj {c1 c2 : Nat} (h1 : c1 < 4294967296) (h2 : c2 < 4294967296)
    (h : toSigned32 c1 = toSigned32 c2) : c1 = c2 := by
  unfold toSigned32 at h
  rw [Nat.mod_eq_of_lt h1, Nat.mod_eq_of_lt h2] at h
  split at h <;> split at h <;> omega

lemma unnamedIdString_inj {c1 c2 : Nat} (h1 : c1 < 4294967296) (h2 : c2 < 4294967296)
    (h : unnamedIdString c1 = unnamedIdString c2) : c1 = c2 :=
  toSigned32_inj h1 h2 (intToString_inj h)

lemma toSigned32_succ_ne (c : Nat) : toSigned32 c ≠ toSigned32 (c + 1) := by
  unfold toSigned32
  have hmod : c % 4294967296 < 4294967296 := Nat.mod_lt _ (by omega)
  rcases Nat.lt_or_ge (c % 4294967296) 4294967295 with hc | hc
  · have : (c + 1) % 4294967296 = c % 4294967296 + 1 := by omega
    rw [this]
    split <;> split <;> omega
  · have hceq : c % 4294967296 = 4294967295 := by omega
    have : (c + 1) % 4294967296 = 0 := by omega
    rw [this, hceq]
    norm_num

lemma unnamedIdString_succ_ne (c : Nat) : unnamedIdString c ≠ unnamedIdString (c + 1) :=
  fun h => toSigned32_succ_ne c (intToString_inj h)

/-- A `Manager<T>::Handle` wraps a `HashMapT::const_iterator`; the iterator
pins the node it was obtained on, so the model identifies a Handle with the
index of that node. -/
structure Handle where
  idx : Nat
deriving DecidableEq

/-- State of `Manager<T>`: its field is the concurrent table `_table`
(associating each identifier with the node currently installed under it),
plus the node store `entries` (each `insert_or_assign` constructs a fresh
node whose `Entry` holds a freshly constructed instance; superseded nodes
are reclaimed only once unobservable, hence append-only here) and the value
of the static unnamed counter `cnt`. -/
structure Manager (α : Type) where
  entries : List α
  table : List (String × Nat)
  counter : Nat

def Manager.empty (α : Type) : Manager α := ⟨[], [], 0⟩

/-- Insert-or-assign on the association-list table: replaces the binding in
place when the key is present, appends a new binding otherwise — the
`insert_or_assign` contract of the collaborator container. -/
def insertOrAssign : List (String × Nat) → String → Nat → List (String × Nat)
  | [], k, i => [(k, i)]
  | (k', i') :: rest, k, i =>
    if k' = k then (k, i) :: rest else (k', i') :: insertOrAssign rest k i

def lookupTable : List (String × Nat) → String → Option Nat
  | [], _ => none
  | (k', i) :: rest, k => if k' = k then some i else lookupTable rest k

/-- `create(id, args...)`: `_table.insert_or_assign(id, T{args...})` then
`return { _table.find(id) }` — a fresh node is installed under `id` and the
returned Handle is bound to it. -/
def Manager.create {α : Type} (m : Manager α) (id : String) (v : α) : Manager α × Handle :=
  (⟨m.entries ++ [v], insertOrAssign m.table id m.entries.length, m.counter⟩,
   ⟨m.entries.length⟩)

/-- `create(UnnamedTag, args...)`: `int id = cnt++;` then the named create on
`std::to_string(id)`. -/
def Manager.createUnnamed {α : Type} (m : Manager α) (v : α) : Manager α × Handle :=
  Manager.create ⟨m.entries, m.table, m.counter + 1⟩ (unnamedIdString m.counter) v

/-- `find(id)`: empty optional when `id` is absent, otherwise a Handle bound
to the node currently installed under `id`. -/
def Manager.find {α : Type} (m : Manager α) (id : String) : Option Handle :=
  (lookupTable m.table id).map Handle.mk

/-- `Handle::value()`: reads the instance held by the node the Handle was
bound to (`*it->second.ptr`). -/
def Handle.value {α : Type} (h : Handle) (m : Manager α) : Option α := m.entries[h.idx]?

/-- `clear()`: `_table.clear()` — the table is emptied; nodes still pinned by
outstanding iterators are reclaimed only later. -/
def Manager.clear {α : Type} (m : Manager α) : Manager α := ⟨m.entries, [], m.counter⟩

/-- `size()`: `_table.size()`. -/
def Manager.size {α : Type} (m : Manager α) : Nat := m.table.length

/-- The registry operations a caller can issue. -/
inductive Op (α : Type) where
  | createN (id : String) (v : α)
  | createU (v : α)
  | clearOp

def applyOp {α : Type} (m : Manager α) : Op α → Manager α
  | .createN id v => (m.create id v).1
  | .createU v => (m.createUnnamed v).1
  | .clearOp => m.clear

/-- The manager state reached by a sequence of operations on the freshly
constructed singleton. -/
def run {α : Type} (ops : List (Op α)) : Manager α := ops.foldl applyOp (Manager.empty α)

def keys (t : List (String × Nat)) : List String := t.map Prod.fst

lemma keys_insertOrAssign :
    ∀ (t : List (String × Nat)) (k : String) (i : Nat),
      keys (insertOrAssign t k i) = if k ∈ keys t then keys t else keys t ++ [k]
  | [], k, i => by simp [insertOrAssign, keys]
  | (k', i') :: rest, k, i => by
    by_cases hk : k' = k
    · subst hk
      simp [insertOrAssign, keys]
    · have ih := keys_insertOrAssign rest k i
      have hne : k ≠ k' := fun h => hk h.symm
      simp only [insertOrAssign, if_neg hk, keys, List.map_cons] at ih ⊢
      by_cases hm : k ∈ List.map Prod.fst rest
      · rw [if_pos hm] at ih
        rw [ih, if_pos (by simp [List.mem_cons, hm])]
      · rw [if_neg hm] at ih
        rw [ih, if_neg (by simp [List.mem_cons, hne, hm])]
        simp

lemma length_insertOrAssign :
    ∀ (t : List (String × Nat)) (k : String) (i : Nat),
      (insertOrAssign t k i).length = if k ∈ keys t then t.length else t.length + 1 := by
  intro t k i
  have h := congrArg List.length (keys_insertOrAssign t k i)
  rw [apply_ite List.length] at h
  simp only [keys, List.length_map, List.length_append, List.length_singleton] at h
  rw [h]
  simp only [keys]

lemma lookupTable_insertOrAssign_self :
    ∀ (t : List (String × Nat)) (k : String) (i : Nat),
      lookupTable (insertOrAssign t k i) k = some i
  | [], k, i => by simp [insertOrAssign, lookupTable]
  | (k', i') :: rest, k, i => by
    by_cases hk : k' = k
    · subst hk
      simp [insertOrAssign, lookupTable]
    · simp [insertOrAssign, lookupTable, hk, lookupTable_insertOrAssign_self rest k i]

lemma lookupTable_insertOrAssign_ne :
    ∀ (t : List (String × Nat)) (k k' : String) (i : Nat), k' ≠ k →
      lookupTable (insertOrAssign t k i) k' = lookupTable t k'
  | [], k, k', i, hne => by
    have hkk : ¬(k = k') := fun h => hne h.symm
    simp [insertOrAssign, lookupTable, hkk]
  | (k0, i0) :: rest, k, k', i, hne => by
    by_cases hk : k0 = k
    · subst hk
      have hkk : ¬(k0 = k') := fun h => hne h.symm
      simp [insertOrAssign, lookupTable, hkk]
    · simp only [insertOrAssign, if_neg hk, lookupTable]
      by_cases hk' : k0 = k'
      · simp [hk']
      · simp [hk', lookupTable_insertOrAssign_ne rest k k' i hne]

lemma lookupTable_isSome_iff :
    ∀ (t : List (String × Nat)) (k : String),
      (lookupTable t k).isSome ↔ k ∈ keys t
  | [], k => by simp [lookupTable, keys]
  | (k', i') :: rest, k => by
    by_cases hk : k' = k
    · subst hk
      simp [lookupTable, keys]
    · have hkk : ¬(k = k') := fun h => hk h.symm
      simp only [lookupTable, if_neg hk, keys, List.map_cons, List.mem_cons]
      rw [lookupTable_isSome_iff rest k]
      simp [keys, hkk]

lemma nodup_keys_applyOp {α : Type} (m : Manager α) (op : Op α)
    (h : (keys m.table).Nodup) : (keys (applyOp m op).table).Nodup := by
  cases op with
  | createN id v =>
    simp only [applyOp, Manager.create, keys_insertOrAssign]
    split
    · exact h
    · next hm => exact List.Nodup.append h (List.nodup_singleton id) (by simpa using hm)
  | createU v =>
    simp only [applyOp, Manager.createUnnamed, Manager.create, keys_insertOrAssign]
    split
    · exact h
    · next hm => exact List.Nodup.append h (List.nodup_singleton _) (by simpa using hm)
  | clearOp => simp [applyOp, Manager.clear, keys]

lemma nodup_keys_foldl {α : Type} :
    ∀ (ops : List (Op α)) (m : Manager α), (keys m.table).Nodup →
      (keys (ops.foldl applyOp m).table).Nodup
  | [], _, h => h
  | op :: ops, m, h => nodup_keys_foldl ops (applyOp m op) (nodup_keys_applyOp m op h)

lemma nodup_keys_run {α : Type} (ops : List (Op α)) : (keys (run ops).table).Nodup :=
  nodup_keys_foldl ops (Manager.empty α) (by simp [Manager.empty, keys])

lemma find_create_self {α : Type} (m : Manager α) (id : String) (v : α) :
    (m.create id v).1.find id = some (m.create id v).2 := by
  simp [Manager.create, Manager.find, lookupTable_insertOrAssign_self]

lemma value_create_self {α : Type} (m : Manager α) (id : String) (v : α) :
    ((m.create id v).2).value (m.create id v).1 = some v := by
  simp only [Manager.create, Handle.value]
  exact List.getElem?_concat_length m.entries v

lemma value_stable_create {α : Type} (m : Manager α) (id : String) (v : α)
    (h : Handle) (x : α) (hx : h.value m = some x) :
    h.value (m.create id v).1 = some x := by
  simp only [Handle.value, Manager.create] at hx ⊢
  have hlt : h.idx < m.entries.length := (List.getElem?_eq_some.mp hx).1
  rw [List.getElem?_append, if_pos hlt]
  exact hx

lemma find_create_ne {α : Type} (m : Manager α) (id id' : String) (v : α)
    (hne : id' ≠ id) : (m.create id v).1.find id' = m.find id' := by
  simp [Manager.create, Manager.find, lookupTable_insertOrAssign_ne m.table id id' _ hne]

lemma size_create {α : Type} (m : Manager α) (id : String) (v : α) :
    (m.create id v).1.size = if id ∈ keys m.table then m.size else m.size + 1 := by
  simp [Manager.create, Manager.size, length_insertOrAssign]

lemma find_isSome_iff {α : Type} (m : Manager α) (id : String) :
    (m.find id).isSome = true ↔ id ∈ keys m.table := by
  rw [← lookupTable_isSome_iff m.table id]
  simp only [Manager.find]
  cases lookupTable m.table id <;> simp

/-- C2: `create(k, v)` installs a fresh node holding `v` under `k` and an
immediate `find(k)` returns a non-empty Handle bound to that node, whose
value reads back `v`. -/
theorem create_find_roundtrip {α : Type} (m : Manager α) (k : String) (v : α) :
    ∃ h : Handle, (m.create k v).1.find k = some h ∧
      h.value (m.create k v).1 = some v :=
  ⟨(m.create k v).2, find_create_self m k v, value_create_self m k v⟩

/-- Witness for C2 at a concrete input: `create("k", 7)` then `find("k")`
reads back 7. -/
theorem create_find_roundtrip_witness :
    ∃ h : Handle, ((Manager.empty Nat).create "k" 7).1.find "k" = some h ∧
      h.value ((Manager.empty Nat).create "k" 7).1 = some 7 :=
  create_find_roundtrip (Manager.empty Nat) "k" 7

/-- C3: a Handle that reads value `v` before `k` is overwritten by a later
`create(k, w)` still reads `v` after the overwrite (the iterator pins its
node, which is only reclaimed once unobservable), while a fresh `find(k)`
issued after the overwrite returns a Handle reading the new value `w`. -/
theorem handle_snapshot_after_overwrite {α : Type} (m : Manager α) (k : String)
    (h : Handle) (v w : α) (hv : h.value m = some v) :
    h.value (m.create k w).1 = some v ∧
    ∃ h2 : Handle, (m.create k w).1.find k = some h2 ∧
      h2.value (m.create k w).1 = some w :=
  ⟨value_stable_create m k w h v hv,
   (m.create k w).2, find_create_self m k w, value_create_self m k w⟩

/-- Witness for C3 at a concrete input: the Handle bound by `create("a", 1)`
still reads 1 after `create("a", 2)`, while a fresh find reads 2. -/
theorem handle_snapshot_after_overwrite_witness :
    (Handle.mk 0).value (((Manager.empty Nat).create "a" 1).1.create "a" 2).1 = some 1 ∧
    ∃ h2 : Handle,
      (((Manager.empty Nat).create "a" 1).1.create "a" 2).1.find "a" = some h2 ∧
      h2.value (((Manager.empty Nat).create "a" 1).1.create "a" 2).1 = some 2 :=
  handle_snapshot_after_overwrite ((Manager.empty Nat).create "a" 1).1 "a"
    (Handle.mk 0) 1 2 (by decide)

/-- C4: every reachable state binds each identifier to at most one node
(the table's keys are duplicate-free), and `create` leaves `size()`
unchanged on a present identifier while increasing it by exactly one on a
fresh identifier. -/
theorem one_entry_per_identifier {α : Type} :
    (∀ ops : List (Op α), (keys (run ops).table).Nodup) ∧
    (∀ (m : Manager α) (k : String) (v : α),
      ((m.find k).isSome = true → (m.create k v).1.size = m.size) ∧
      (m.find k = none → (m.create k v).1.size = m.size + 1)) := by
  refine ⟨nodup_keys_run, fun m k v => ⟨fun hp => ?_, fun ha => ?_⟩⟩
  · rw [size_create, if_pos ((find_isSome_iff m k).mp hp)]
  · have : (m.find k).isSome = true ↔ k ∈ keys m.table := find_isSome_iff m k
    rw [ha] at this
    rw [size_create, if_neg (fun hm => by simp [hm] at this)]

/-- Witness for C4 at concrete inputs: a two-operation run has
duplicate-free keys, overwriting key "a" keeps size at 1, and creating
fresh key "b" raises size from 1 to 2. -/
theorem one_entry_per_identifier_witness :
    (keys (run [Op.createN "a" (1 : Nat), Op.createU 2]).table).Nodup ∧
    (((Manager.empty Nat).create "a" 1).1.create "a" 2).1.size =
      ((Manager.empty Nat).create "a" 1).1.size ∧
    (((Manager.empty Nat).create "a" 1).1.create "b" 3).1.size =
      ((Manager.empty Nat).create "a" 1).1.size + 1 :=
  ⟨(@one_entry_per_identifier Nat).1 [Op.createN "a" 1, Op.createU 2],
   ((@one_entry_per_identifier Nat).2 ((Manager.empty Nat).create "a" 1).1 "a" 2).1
     (by decide),
   ((@one_entry_per_identifier Nat).2 ((Manager.empty Nat).create "a" 1).1 "b" 3).2
     (by decide)⟩

/-- C7: after `clear()` every identifier is unresolvable via `find` and
`size()` reports zero. -/
theorem clear_resets {α : Type} (m : Manager α) (k : String) :
    m.clear.find k = none ∧ m.clear.size = 0 := by
  simp [Manager.clear, Manager.find, Manager.size, lookupTable]

/-- Witness for C7 at a concrete input: clearing a registry holding "a"
makes "a" unresolvable and the size zero. -/
theorem clear_resets_witness :
    ((Manager.empty Nat).create "a" 1).1.clear.find "a" = none ∧
    ((Manager.empty Nat).create "a" 1).1.clear.size = 0 :=
  clear_resets ((Manager.empty Nat).create "a" 1).1 "a"

/-- C8: `find(id)` returns a non-empty optional exactly when `id` is
present, and the returned Handle is bound to the node currently installed
under `id`; absence yields an empty optional, not an error. -/
theorem find_present_absent {α : Type} (m : Manager α) (k : String) :
    ((m.find k).isSome = true ↔ k ∈ keys m.table) ∧
    (∀ h : Handle, m.find k = some h → lookupTable m.table k = some h.idx) ∧
    (k ∉ keys m.table → m.find k = none) := by
  refine ⟨find_isSome_iff m k, fun h hf => ?_, fun ha => ?_⟩
  · simp only [Manager.find] at hf
    cases hl : lookupTable m.table k with
    | none => rw [hl] at hf; simp at hf
    | some i =>
      rw [hl] at hf
      simp only [Option.map_some'] at hf
      cases hf
      rfl
  · have hiff := find_isSome_iff m k
    cases hf : m.find k with
    | none => rfl
    | some h => rw [hf] at hiff; simp at hiff; exact absurd hiff ha

/-- Witness for C8 at a concrete input: after `create("a", 1)` the find on
"a" is bound to the installed node and the find on "b" is empty. -/
theorem find_present_absent_witness :
    lookupTable ((Manager.empty Nat).create "a" 1).1.table "a" = some 0 ∧
    ((Manager.empty Nat).create "a" 1).1.find "b" = none :=
  ⟨(find_present_absent ((Manager.empty Nat).create "a" 1).1 "a").2.1
     (Handle.mk 0) (by decide),
   (find_present_absent ((Manager.empty Nat).create "a" 1).1 "b").2.2 (by decide)⟩

lemma createUnnamed_counter {α : Type} (m : Manager α) (v : α) :
    (m.createUnnamed v).1.counter = m.counter + 1 := rfl

lemma size_createUnnamed {α : Type} (m : Manager α) (v : α)
    (hfresh : unnamedIdString m.counter ∉ keys m.table) :
    (m.createUnnamed v).1.size = m.size + 1 := by
  simp only [Manager.createUnnamed]
  rw [size_create, if_neg hfresh]
  rfl

lemma keys_createUnnamed {α : Type} (m : Manager α) (v : α)
    (hfresh : unnamedIdString m.counter ∉ keys m.table) :
    keys (m.createUnnamed v).1.table = keys m.table ++ [unnamedIdString m.counter] := by
  simp only [Manager.createUnnamed, Manager.create, keys_insertOrAssign]
  rw [if_neg hfresh]

/-- C5 (amended): each unnamed create increments the per-type counter by
one and formats the wrapped 32-bit value in decimal; identifiers drawn
before the counter wraps (fewer than 2^32 unnamed creates) are pairwise
distinct, consecutive unnamed creates always produce distinct identifiers,
and two unnamed creates increase the registry size by exactly two provided
neither generated identifier is already present in the (shared) namespace. -/
theorem unnamed_create_fresh_ids {α : Type} :
    (∀ c1 c2 : Nat, c1 < 4294967296 → c2 < 4294967296 → c1 ≠ c2 →
      unnamedIdString c1 ≠ unnamedIdString c2) ∧
    (∀ (m : Manager α) (v : α), (m.createUnnamed v).1.counter = m.counter + 1) ∧
    (∀ (m : Manager α) (v1 v2 : α),
      unnamedIdString m.counter ≠ unnamedIdString (m.counter + 1) ∧
      (unnamedIdString m.counter ∉ keys m.table →
       unnamedIdString (m.counter + 1) ∉ keys m.table →
       ((m.createUnnamed v1).1.createUnnamed v2).1.size = m.size + 2)) := by
  refine ⟨fun c1 c2 h1 h2 hne h => hne (unnamedIdString_inj h1 h2 h),
    fun m v => rfl, fun m v1 v2 => ⟨unnamedIdString_succ_ne m.counter, fun hf1 hf2 => ?_⟩⟩
  have hc : (m.createUnnamed v1).1.counter = m.counter + 1 := rfl
  have hk := keys_createUnnamed m v1 hf1
  have hf2' : unnamedIdString (m.createUnnamed v1).1.counter ∉
      keys (m.createUnnamed v1).1.table := by
    rw [hc, hk]
    intro hmem
    rcases List.mem_append.mp hmem with hmem | hmem
    · exact hf2 hmem
    · exact unnamedIdString_succ_ne m.counter (List.mem_singleton.mp hmem).symm
  rw [size_createUnnamed (m.createUnnamed v1).1 v2 hf2', size_createUnnamed m v1 hf1]

/-- Witness for C5 (amended) at concrete inputs: the first two unnamed
identifiers differ and, on an empty registry, two unnamed creates raise the
size from zero to two. -/
theorem unnamed_create_fresh_ids_witness :
    unnamedIdString 0 ≠ unnamedIdString 1 ∧
    (((Manager.empty Nat).createUnnamed 5).1.createUnnamed 6).1.size =
      (Manager.empty Nat).size + 2 :=
  ⟨(@unnamed_create_fresh_ids Nat).1 0 1 (by decide) (by decide) (by decide),
   ((@unnamed_create_fresh_ids Nat).2.2 (Manager.empty Nat) 5 6).2 (by decide) (by decide)⟩

/-- C5 counterexample: with `"1"` already present as a named identifier,
the next two unnamed creates (counter at 0, producing "0" then "1") add
only one identifier to the registry, not two; moreover the 32-bit counter
wraps, so the identifier produced by the 2^32-th unnamed create repeats
the very first one. -/
theorem unnamed_create_counterexample :
    (((((Manager.empty Nat).create "1" 1).1.createUnnamed 2).1.createUnnamed 3).1.size =
      ((Manager.empty Nat).create "1" 1).1.size + 1) ∧
    unnamedIdString 0 = unnamedIdString 4294967296 :=
  ⟨by decide, by decide⟩

/-- C10: unnamed and named identifiers share one namespace: after
`create("0", 1)` the first unnamed create formats its counter value 0 as
"0" and overwrites that entry — the registry holds a single entry under
"0" whose fresh lookup reads the unnamed value, so unnamed creation did
not increase the registry size. -/
theorem unnamed_named_shared_namespace :
    (((Manager.empty Nat).create "0" 1).1.createUnnamed 2).1.size = 1 ∧
    ((((Manager.empty Nat).create "0" 1).1.createUnnamed 2).1.find "0").bind
      (fun h => h.value (((Manager.empty Nat).create "0" 1).1.createUnnamed 2).1) =
      some 2 :=
  ⟨by decide, by decide⟩

/-- `Manager<T>::_max_elements`: the element count the arena is sized for
(`_buffer_size = sizeof(T) * _max_elements`). -/
def maxElements : Nat := 1024

/-- Operation sequence issuing `n` named creates under the distinct
decimal identifiers "0", "1", ..., entry `i` holding value `i`. -/
def fillOps (n : Nat) : List (Op Nat) :=
  (List.range n).map (fun i => Op.createN (natToString i) i)

def fillState (n : Nat) : Manager Nat := run (fillOps n)

lemma fillState_succ (n : Nat) :
    fillState (n + 1) = ((fillState n).create (natToString n) n).1 := by
  unfold fillState fillOps run
  rw [List.range_succ, List.map_append, List.foldl_append]
  rfl

lemma natToString_not_mem_range (n : Nat) :
    natToString n ∉ (List.range n).map natToString := by
  intro hmem
  simp only [List.mem_map, List.mem_range] at hmem
  obtain ⟨i, hi, heq⟩ := hmem
  have := natToString_inj heq
  omega

lemma keys_fillState : ∀ n : Nat, keys (fillState n).table = (List.range n).map natToString
  | 0 => rfl
  | n + 1 => by
    rw [fillState_succ]
    simp only [Manager.create, keys_insertOrAssign]
    rw [keys_fillState n, if_neg (natToString_not_mem_range n), List.range_succ,
      List.map_append, List.map_singleton]

lemma size_fillState (n : Nat) : (fillState n).size = n := by
  have h := congrArg List.length (keys_fillState n)
  simp only [keys, List.length_map, List.length_range] at h
  exact h

lemma fill_size_gt (n : Nat) : n < (fillState (n + 1)).size := by
  rw [size_fillState]
  omega

lemma fill_last_readable (n : Nat) :
    ((fillState (n + 1)).find (natToString n)).bind
      (fun h => h.value (fillState (n + 1))) = some n := by
  rw [fillState_succ, find_create_self]
  exact value_create_self _ _ _

/-- C1: the code surfaces no capacity failure at all: `create` returns a
Handle unconditionally (the slot allocation inside `Entry` is guarded only
by `assert`, and the arena's monotonic resource falls back to its upstream
resource when the 1024-element buffer is exhausted), so `_max_elements + 1`
distinct named creates all succeed — the registry exceeds `_max_elements`
and the offending last create installed a readable entry instead of
failing. -/
theorem capacity_not_enforced :
    maxElements < (fillState (maxElements + 1)).size ∧
    (fillState (maxElements + 1)).size = maxElements + 1 ∧
    ((fillState (maxElements + 1)).find (natToString maxElements)).bind
      (fun h => h.value (fillState (maxElements + 1))) = some maxElements :=
  ⟨fill_size_gt maxElements, size_fillState (maxElements + 1),
   fill_last_readable maxElements⟩

/-- Events emitted by an Entry's teardown: destructor call on the managed
instance at a slot, and release of a slot to the pool. -/
inductive EntryEvent where
  | destroyInstance (slot : Nat)
  | deallocate (slot : Nat)
deriving DecidableEq

/-- Free-slot bookkeeping of the synchronized pool over the arena: freed
slots are reused before fresh slots are carved from the arena. -/
structure AllocState where
  freeSlots : List Nat
  nextSlot : Nat
deriving DecidableEq

def allocateSlot (a : AllocState) : AllocState × Nat :=
  match a.freeSlots with
  | [] => (⟨[], a.nextSlot + 1⟩, a.nextSlot)
  | s :: rest => (⟨rest, a.nextSlot⟩, s)

/-- `Manager<T>::Entry`: holds the raw pointer `ptr` to the slot it owns. -/
structure Entry where
  ptr : Nat
deriving DecidableEq

/-- Entry's forwarding constructor: `ptr(_allocator.allocate(1))` followed
by placement-new of the managed instance into the slot. -/
def entryNew (a : AllocState) : AllocState × Entry :=
  ((allocateSlot a).1, ⟨(allocateSlot a).2⟩)

/-- The defaulted move constructor `Entry(Entry &&other) noexcept = default`
memberwise-moves the raw pointer member, which simply copies it and leaves
`other.ptr` unchanged: the result is the pair (moved-to Entry, source Entry
after the move), both holding the same slot. -/
def entryMoveCtor (e : Entry) : Entry × Entry := (⟨e.ptr⟩, e)

/-- Entry's destructor body in order: `ptr->~T();` then
`Manager<T>::_allocator.deallocate(ptr, 1);`. -/
def entryDtorEvents (e : Entry) : List EntryEvent :=
  [EntryEvent.destroyInstance e.ptr, EntryEvent.deallocate e.ptr]

/-- C6: the destructor does destroy the contained instance before releasing
the slot, but the defaulted move constructor duplicates slot ownership:
constructing an Entry, move-constructing a second Entry from it and
destroying both destroys the instance twice and releases the same slot
twice. -/
theorem entry_move_double_release :
    entryDtorEvents (entryNew ⟨[], 0⟩).2 =
      [EntryEvent.destroyInstance 0, EntryEvent.deallocate 0] ∧
    (entryDtorEvents (entryMoveCtor (entryNew ⟨[], 0⟩).2).1 ++
      entryDtorEvents (entryMoveCtor (entryNew ⟨[], 0⟩).2).2).count
        (EntryEvent.deallocate 0) = 2 ∧
    (entryDtorEvents (entryMoveCtor (entryNew ⟨[], 0⟩).2).1 ++
      entryDtorEvents (entryMoveCtor (entryNew ⟨[], 0⟩).2).2).count
        (EntryEvent.destroyInstance 0) = 2 :=
  ⟨rfl, by decide, by decide⟩

/-- C9: creating under `k1` leaves `find(k2)` for any other identifier `k2`
unchanged — same presence, same Handle — and every value readable through a
Handle before the create is still readable unchanged after it. -/
theorem create_frame {α : Type} (m : Manager α) (k1 k2 : String) (v : α)
    (hne : k2 ≠ k1) :
    (m.create k1 v).1.find k2 = m.find k2 ∧
    (∀ (h : Handle) (x : α), h.value m = some x → h.value (m.create k1 v).1 = some x) :=
  ⟨find_create_ne m k1 k2 v hne, fun h x hx => value_stable_create m k1 v h x hx⟩

/-- Witness for C9 at a concrete input: `create("a", 7)` does not disturb
the binding or the value previously installed under "b". -/
theorem create_frame_witness :
    (((Manager.empty Nat).create "b" 5).1.create "a" 7).1.find "b" =
      ((Manager.empty Nat).create "b" 5).1.find "b" ∧
    (Handle.mk 0).value (((Manager.empty Nat).create "b" 5).1.create "a" 7).1 = some 5 :=
  ⟨(create_frame ((Manager.empty Nat).create "b" 5).1 "a" "b" 7 (by decide)).1,
   (create_frame ((Manager.empty Nat).create "b" 5).1 "a" "b" 7 (by decide)).2
     (Handle.mk 0) 5 (by decide)⟩

end MrManager
